import Mathlib

/-!
Verification of the azure-rag-test backend against its design document.

The development shallowly embeds the TypeScript sources:

* `src/utils/tokenizer.ts`   — `chunkText` (token windows with overlap)
* `src/utils/helpers.ts`     — `normalizeQuery`, `createCacheKey`
* `src/services/confidence/confidenceService.ts` — `calculateConfidence`
* `src/services/formQueryService.ts` — `processFormQuery` orchestrator
* `src/services/ingest/ingestService.ts` — `flattenData`, ingestion counts
* `src/api/health.ts`        — the `GET /health` handler

Modelling conventions: strings that are inspected character by character
are `List Nat` of Unicode code points; JavaScript numbers are `ℚ` with
`Math.round x = ⌊x + 1/2⌋`; the tiktoken encoder is an abstract
`String → List Nat` parameter (chunking itself is token-agnostic);
asynchronous effects are passed in as an explicit environment of
outcomes and observable effects are returned as an explicit trace.
-/

namespace AzureRag

/-! ## Tokenizer / chunker (`src/utils/tokenizer.ts`)

`chunkText` in the source runs a `while (start < tokens.length)` loop:
`end = min(start + chunkSize, tokens.length)`, pushes
`tokens.slice(start, end)`, breaks when `end` reaches the stream length,
and otherwise advances `start += chunkSize - overlap`.  The loop is
embedded fuel-indexed (`chunkGo`); `chunkText` supplies enough fuel for
every configuration with `overlap < size`.  With `overlap ≥ size` the
JavaScript pointer never advances and the loop never exits, which shows
up here as the result growing with the fuel. -/

def chunkGo {α : Type} (size overlap : Nat) (tokens : List α) : Nat → Nat → List (List α)
  | 0, _ => []
  | fuel + 1, start =>
    if start < tokens.length then
      ((tokens.drop start).take (min (start + size) tokens.length - start)) ::
        (if min (start + size) tokens.length = tokens.length then []
         else chunkGo size overlap tokens fuel (start + (size - overlap)))
    else []

def chunkText {α : Type} (tokens : List α) (size overlap : Nat) : List (List α) :=
  chunkGo size overlap tokens (tokens.length + 1) 0

/-! ## Query normalization (`src/utils/helpers.ts`)

`normalizeQuery` chains `toLowerCase`, `trim`, `replace(/\s+/g, ' ')` and
`replace(/[^\w\s]/g, '')`.  Strings are embedded as lists of Unicode code
points.  `isWs` is the JavaScript `\s` character class, `isWordChar` is
`\w` (= `[A-Za-z0-9_]`), `toLowerChar` is the per-code-point lowering
(the inputs of interest are in the Basic Latin range). -/

def isWs (c : Nat) : Prop :=
  c = 9 ∨ c = 10 ∨ c = 11 ∨ c = 12 ∨ c = 13 ∨ c = 32 ∨ c = 160 ∨ c = 5760 ∨
    (8192 ≤ c ∧ c ≤ 8202) ∨ c = 8232 ∨ c = 8233 ∨ c = 8239 ∨ c = 8287 ∨
    c = 12288 ∨ c = 65279

instance (c : Nat) : Decidable (isWs c) := by
  unfold isWs
  infer_instance

def isWordChar (c : Nat) : Prop :=
  (48 ≤ c ∧ c ≤ 57) ∨ (65 ≤ c ∧ c ≤ 90) ∨ (97 ≤ c ∧ c ≤ 122) ∨ c = 95

instance (c : Nat) : Decidable (isWordChar c) := by
  unfold isWordChar
  infer_instance

def toLowerChar (c : Nat) : Nat :=
  if 65 ≤ c ∧ c ≤ 90 then c + 32 else c

def wsB (c : Nat) : Bool := decide (isWs c)

def wordOrWsB (c : Nat) : Bool := decide (isWordChar c ∨ isWs c)

/-- `String.prototype.trim`: whitespace stripped from both ends. -/
def jsTrim (l : List Nat) : List Nat :=
  ((l.dropWhile wsB).reverse.dropWhile wsB).reverse

/-- `replace(/\s+/g, ' ')`: every maximal whitespace run becomes one space.
The boolean flag records whether the previous character was whitespace
(i.e. whether we are inside a run that has already emitted its space). -/
def collapseGo : Bool → List Nat → List Nat
  | _, [] => []
  | prevWs, c :: rest =>
    if wsB c then
      if prevWs then collapseGo true rest
      else 32 :: collapseGo true rest
    else c :: collapseGo false rest

def collapseWs (l : List Nat) : List Nat := collapseGo false l

/-- `replace(/[^\w\s]/g, '')`: keep word characters and whitespace. -/
def filterWordWs (l : List Nat) : List Nat := l.filter wordOrWsB

def normalizeQuery (l : List Nat) : List Nat :=
  filterWordWs (collapseWs (jsTrim (l.map toLowerChar)))

/-! ## Cache keys (`src/utils/helpers.ts`)

`createCacheKey(query, customerId)` hashes
`customerId ? customerId + ":" + normalizeQuery(query) : normalizeQuery(query)`
with SHA-256 and prefixes `"query:"`.  The hash is an abstract function
parameter; JavaScript truthiness makes an empty-string `customerId`
behave exactly like an absent one.  `[58]` is `":"`, `queryPrefix` is
the code points of `"query:"`. -/

def queryPrefix : List Nat := [113, 117, 101, 114, 121, 58]

def createCacheKey (hash : List Nat → List Nat) (query : List Nat)
    (customerId : Option (List Nat)) : List Nat :=
  queryPrefix ++
    hash (match customerId with
      | some c => if c = [] then normalizeQuery query else c ++ 58 :: normalizeQuery query
      | none => normalizeQuery query)

/-! ## Confidence scoring (`src/services/confidence/confidenceService.ts`)

JavaScript numbers are modelled as `ℚ`; `Math.round x = ⌊x + 1/2⌋`
(half-way cases toward `+∞`), and `Math.round(x * 100) / 100` is the
2-decimal rounding used throughout the service. -/

def jsRound (x : ℚ) : ℤ := ⌊x + 1 / 2⌋

def round2 (x : ℚ) : ℚ := (jsRound (x * 100) : ℚ) / 100

/-- `normalizeScore(score, min, max) = Math.max(0, Math.min(1, (score - min) / (max - min)))`. -/
def normalizeScore (score lo hi : ℚ) : ℚ :=
  max 0 (min 1 ((score - lo) / (hi - lo)))

/-- Clamp to `[0, 1]` — the claim's phrasing of the two trivial
normalizations; related to the source's `normalizeScore` in the theorems. -/
def clamp01 (x : ℚ) : ℚ := max 0 (min 1 x)

structure ConfidenceInputs where
  avgSimilarityScore : ℚ
  avgLexicalScore : ℚ
  llmScore : ℚ

structure ConfidenceResult where
  finalConfidence : ℚ
  componentSimilarity : ℚ
  componentLexical : ℚ
  componentLLM : ℚ
  weightSimilarity : ℚ
  weightLexical : ℚ
  weightLLM : ℚ

def CONFIDENCE_WEIGHTS_similarity : ℚ := 45 / 100
def CONFIDENCE_WEIGHTS_lexical : ℚ := 35 / 100
def CONFIDENCE_WEIGHTS_llm : ℚ := 20 / 100

def calculateConfidence (inputs : ConfidenceInputs) : ConfidenceResult :=
  { finalConfidence := round2
      (CONFIDENCE_WEIGHTS_similarity * normalizeScore inputs.avgSimilarityScore 0 1 +
       CONFIDENCE_WEIGHTS_lexical * normalizeScore inputs.avgLexicalScore 0 100 +
       CONFIDENCE_WEIGHTS_llm * normalizeScore inputs.llmScore 0 1)
    componentSimilarity := round2 (normalizeScore inputs.avgSimilarityScore 0 1)
    componentLexical := round2 (normalizeScore inputs.avgLexicalScore 0 100)
    componentLLM := round2 (normalizeScore inputs.llmScore 0 1)
    weightSimilarity := CONFIDENCE_WEIGHTS_similarity
    weightLexical := CONFIDENCE_WEIGHTS_lexical
    weightLLM := CONFIDENCE_WEIGHTS_llm }

/-! ## Query orchestrator (`src/services/formQueryService.ts`)

`processFormQuery` is embedded as a pure function of the request and an
environment of external outcomes (feature flag, cache-lookup result,
ingestion-marker existence, retrieval result, generation result, whether
the final cache write succeeds).  It returns the response together with
a trace of the observable effects the claims talk about: query-cache
writes, ingestion-marker writes, and whether generation / confidence
scoring ran.  A thrown error is `Except.error` with the message of the
service's catch-all (`'Failed to process form query'`); the final
`redisClient.set` (whose failure `RedisService.set` rethrows as
`'Failed to set cache value'`) lands in that catch-all.  TTLs and log
lines are not modelled. -/

structure SearchResultM where
  id : String
  content : String
  dataPath : String
  score : ℚ

structure RetrievalResultM where
  results : List SearchResultM
  avgSimilarityScore : ℚ
  avgLexicalScore : ℚ

structure GenerationResultM where
  answer : String
  dataPath : List String
  explanation : String
  llmConfidence : ℚ

structure FormQueryRequest where
  formQuestion : List Nat
  customerId : Option (List Nat)

structure FormQueryResponse where
  answer : String
  dataPath : List String
  confidence : ℚ
  sources : List (String × ℚ)
  cached : Bool
deriving DecidableEq

structure Env where
  queryCacheFlag : Bool
  cacheGet : Option FormQueryResponse
  indexedExists : Bool
  retrieval : RetrievalResultM
  generation : GenerationResultM
  cacheSetOk : Bool

structure Trace where
  queryCacheWrites : List (List Nat × FormQueryResponse)
  markerWrites : List (List Nat)
  ingestCalled : Bool
  generateCalled : Bool
  confidenceCalled : Bool

def emptyTrace : Trace :=
  { queryCacheWrites := [], markerWrites := [], ingestCalled := false,
    generateCalled := false, confidenceCalled := false }

/-- Modelled from the spec: `extractDataPaths` lives in the retrieval
service, whose implementation file is not in the repository snapshot
(only its README and callers are); per the spec it returns the set of
unique source paths of the results. -/
def extractDataPaths (results : List SearchResultM) : List String :=
  (results.map (fun r => r.dataPath)).dedup

/-- Step 2 of `processFormQuery`: ensure the customer's data is indexed
(JS truthiness on `customerId`: the empty string skips the block like
`undefined`); on a missing marker, ingestion runs and the marker is
written. -/
def step2Trace (env : Env) (req : FormQueryRequest) : Trace :=
  match req.customerId with
  | some cid =>
    if cid = [] then emptyTrace
    else if env.indexedExists then emptyTrace
    else { emptyTrace with ingestCalled := true, markerWrites := [cid] }
  | none => emptyTrace

/-- The fixed zero-results response of step 3. -/
def noRelevantInfoResponse : FormQueryResponse :=
  { answer := "No relevant information found.", dataPath := [],
    confidence := 0, sources := [], cached := false }

/-- Steps 2–8 of `processFormQuery`, i.e. the part after a cache miss. -/
def processFormQueryMiss (hash : List Nat → List Nat) (env : Env)
    (req : FormQueryRequest) : Except String (FormQueryResponse × Trace) :=
  let t1 : Trace := step2Trace env req
  -- Step 3: hybrid search.
  if env.retrieval.results.length = 0 then
    .ok (noRelevantInfoResponse, t1)
  else
    -- Step 4: canonical data paths.
    let dataPaths := extractDataPaths env.retrieval.results
    -- Step 5: structured generation.
    let generationResult := env.generation
    -- Step 6: final confidence.
    let confidenceResult := calculateConfidence
      { avgSimilarityScore := env.retrieval.avgSimilarityScore,
        avgLexicalScore := env.retrieval.avgLexicalScore,
        llmScore := generationResult.llmConfidence }
    -- Step 7: build the response.
    let response : FormQueryResponse :=
      { answer := generationResult.answer,
        dataPath := if 0 < generationResult.dataPath.length then generationResult.dataPath
                    else dataPaths,
        confidence := confidenceResult.finalConfidence,
        sources := (env.retrieval.results.take 5).map (fun r => (r.dataPath, r.score)),
        cached := false }
    let t2 := { t1 with generateCalled := true, confidenceCalled := true }
    -- Step 8: cache the final response; a failed `set` throws and is
    -- rethrown by the service's catch-all.
    if env.queryCacheFlag then
      if env.cacheSetOk then
        .ok (response, { t2 with queryCacheWrites :=
          [(createCacheKey hash (normalizeQuery req.formQuestion) req.customerId, response)] })
      else .error "Failed to process form query"
    else .ok (response, t2)

def processFormQuery (hash : List Nat → List Nat) (env : Env)
    (req : FormQueryRequest) : Except String (FormQueryResponse × Trace) :=
  -- Step 1: normalize, hash, and look the query up in the cache.  The
  -- source passes the already-normalized query into `createCacheKey`,
  -- which normalizes again.
  if env.queryCacheFlag then
    match env.cacheGet with
    | some cachedResult => .ok ({ cachedResult with cached := true }, emptyTrace)
    | none => processFormQueryMiss hash env req
  else processFormQueryMiss hash env req

/-! ## Health endpoint (`src/api/health.ts`)

The Express handler is a synchronous function: it starts the Redis and
search probes but never awaits them, then immediately computes the HTTP
status from the `health` record and sends it.  The probe continuations
can only run after the synchronous body — and hence the response — is
done.  `healthHandler` returns both the response actually sent and the
`health` record as the continuations later leave it. -/

structure HealthState where
  status : String
  redis : String
  search : String
deriving DecidableEq

def initialHealth : HealthState :=
  { status := "ok", redis := "unknown", search := "unknown" }

def applyRedisProbe (ok : Bool) (h : HealthState) : HealthState :=
  if ok then { h with redis := "ok" }
  else { h with redis := "error", status := "degraded" }

def applySearchProbe (ok : Bool) (h : HealthState) : HealthState :=
  if ok then { h with search := "ok" }
  else { h with search := "error", status := "degraded" }

def healthHandler (redisProbeOk searchProbeOk : Bool) :
    (Nat × HealthState) × HealthState :=
  -- sent synchronously, before either probe continuation runs:
  ((if initialHealth.status = "ok" then 200 else 503, initialHealth),
  -- the state the unawaited continuations later produce (unobserved by
  -- the client):
   applySearchProbe searchProbeOk (applyRedisProbe redisProbeOk initialHealth))

/-! ## Ingestion (`src/services/ingest/ingestService.ts`)

`flattenData` recurses over the JSON value: objects join keys with `.`,
arrays render indices as `[i]`, leaves (string / number / boolean) are
stringified, `null` is skipped.  JSON numbers are modelled as integers
(their JavaScript rendering is `Int.repr`).  `ingestCustomerData`'s
counting core: every flattened pair counts toward `documentsProcessed`;
pairs whose value is shorter than 10 characters are skipped
(`!value || value.length < 10` — the empty string is subsumed by the
length test), the rest are chunked (via the abstract tokenizer `encode`)
and each chunk becomes one staged document, counted by `chunksCreated`.
The network side (blob fetch, embeddings, index upserts, caching) is not
modelled; it does not affect the two counts. -/

inductive JValue where
  | jstr (s : String)
  | jnum (n : Int)
  | jbool (b : Bool)
  | jnull
  | jarr (items : List JValue)
  | jobj (fields : List (String × JValue))

mutual
def flattenData (data : JValue) (parentPath : String) : List (String × String) :=
  match data with
  | .jobj fields => flattenFields fields parentPath
  | .jarr items => flattenItems items parentPath 0
  | .jstr s => [(parentPath, s)]
  | .jnum n => [(parentPath, toString n)]
  | .jbool b => [(parentPath, cond b "true" "false")]
  | .jnull => []

def flattenFields (fields : List (String × JValue)) (parentPath : String) :
    List (String × String) :=
  match fields with
  | [] => []
  | (key, value) :: rest =>
    flattenData value (if parentPath = "" then key else parentPath ++ "." ++ key) ++
      flattenFields rest parentPath

def flattenItems (items : List JValue) (parentPath : String) (index : Nat) :
    List (String × String) :=
  match items with
  | [] => []
  | item :: rest =>
    flattenData item
        (if parentPath = "" then "[" ++ toString index ++ "]"
         else parentPath ++ "[" ++ toString index ++ "]") ++
      flattenItems rest parentPath (index + 1)
end

structure IngestResult where
  documentsProcessed : Nat
  chunksCreated : Nat

/-- The per-pair loop body: values shorter than 10 characters are skipped,
the rest contribute one staged document per chunk. -/
def chunksForPair (encode : String → List Nat) (size overlap : Nat)
    (pv : String × String) : Nat :=
  if pv.2.length < 10 then 0 else (chunkText (encode pv.2) size overlap).length

def ingestCustomerData (encode : String → List Nat) (size overlap : Nat)
    (data : JValue) : IngestResult :=
  { documentsProcessed := (flattenData data "").length
    chunksCreated :=
      (flattenData data "").foldl (fun acc pv => acc + chunksForPair encode size overlap pv) 0 }

/-- A concrete stand-in tokenizer for the closed examples (one token per
code point); the theorems over `ingestCustomerData` hold for every
`encode`. -/
def exEncode (s : String) : List Nat := s.data.map Char.toNat

/-! ## Concrete instances used by closed witnesses and counterexamples -/

def cexSearchResult : SearchResultM :=
  { id := "doc1", content := "the customer's email is john.doe@example.com",
    dataPath := "contact.email", score := 9 / 10 }

def cexGeneration : GenerationResultM :=
  { answer := "john.doe@example.com", dataPath := ["contact.email"],
    explanation := "found in the contact record", llmConfidence := 92 / 100 }

def cexRetrieval : RetrievalResultM :=
  { results := [cexSearchResult], avgSimilarityScore := 89 / 100,
    avgLexicalScore := 77 / 2 }

/-- An environment in which the final cache write fails. -/
def cexEnvSetFail : Env :=
  { queryCacheFlag := true, cacheGet := none, indexedExists := true,
    retrieval := cexRetrieval, generation := cexGeneration, cacheSetOk := false }

/-- A stored response, as the cache-store step persists it (`cached = false`). -/
def cachedResp : FormQueryResponse :=
  { answer := "cached answer", dataPath := ["contact.email"],
    confidence := 1 / 2, sources := [], cached := false }

/-- An environment whose cache lookup hits. -/
def envHit : Env :=
  { queryCacheFlag := true, cacheGet := some cachedResp, indexedExists := true,
    retrieval := cexRetrieval, generation := cexGeneration, cacheSetOk := true }

/-- An environment whose retrieval returns zero results. -/
def envEmpty : Env :=
  { queryCacheFlag := true, cacheGet := none, indexedExists := true,
    retrieval := { results := [], avgSimilarityScore := 0, avgLexicalScore := 0 },
    generation := cexGeneration, cacheSetOk := true }

def cexReq : FormQueryRequest := { formQuestion := [104, 105], customerId := none }

/-! # Theorems -/

/-- Characterization of the chunking loop, by induction on the fuel: with
`overlap < size`, from any in-range start the loop yields a non-empty
chunk list whose `i`-th chunk is the `size`-token slice at
`start + i * (size - overlap)`; every chunk but the last stops strictly
before the end of the stream, and the last one reaches it. -/
theorem chunkGo_spec {α : Type} (size overlap : Nat) (hso : overlap < size) (tokens : List α) :
    ∀ fuel start, tokens.length - start ≤ fuel → start < tokens.length →
      0 < (chunkGo size overlap tokens fuel start).length ∧
      (∀ i (hi : i < (chunkGo size overlap tokens fuel start).length),
          (chunkGo size overlap tokens fuel start).get ⟨i, hi⟩ =
            (tokens.drop (start + i * (size - overlap))).take size) ∧
      (∀ i, i + 1 < (chunkGo size overlap tokens fuel start).length →
          start + i * (size - overlap) + size < tokens.length) ∧
      tokens.length ≤
        start + ((chunkGo size overlap tokens fuel start).length - 1) * (size - overlap) + size := by
  intro fuel
  induction fuel with
  | zero => intro start hf hs; omega
  | succ n ih =>
    intro start hf hs
    by_cases he : min (start + size) tokens.length = tokens.length
    · -- final window
      have hns : tokens.length ≤ start + size := by omega
      have hrw : chunkGo size overlap tokens (n + 1) start =
          [(tokens.drop start).take (min (start + size) tokens.length - start)] := by
        simp only [chunkGo, if_pos hs, if_pos he]
      rw [hrw]
      refine ⟨by simp, ?_, ?_, ?_⟩
      · intro i hi
        simp only [List.length_singleton] at hi
        interval_cases i
        have h1 : min (start + size) tokens.length - start = tokens.length - start := by omega
        have h2 : (tokens.drop start).take (tokens.length - start) = tokens.drop start := by
          apply List.take_of_length_le
          simp
        have h3 : (tokens.drop start).take size = tokens.drop start := by
          apply List.take_of_length_le
          simp
          omega
        simp [h1, h2, h3]
      · intro i hi
        simp at hi
      · simp
        omega
    · -- the window is full and the loop continues
      have hlt : start + size < tokens.length := by omega
      have hmin : min (start + size) tokens.length = start + size := by omega
      have harg : min (start + size) tokens.length - start = size := by omega
      have hrw : chunkGo size overlap tokens (n + 1) start =
          (tokens.drop start).take size ::
            chunkGo size overlap tokens n (start + (size - overlap)) := by
        simp only [chunkGo, if_pos hs, harg, if_neg he]
      obtain ⟨ih1, ih2, ih3, ih4⟩ := ih (start + (size - overlap)) (by omega) (by omega)
      rw [hrw]
      set rest := chunkGo size overlap tokens n (start + (size - overlap)) with hrest
      refine ⟨by simp, ?_, ?_, ?_⟩
      · intro i hi
        match i with
        | 0 => simp
        | j + 1 =>
          simp only [List.length_cons] at hi
          have hj : j < rest.length := by omega
          have := ih2 j hj
          simp only [List.get_cons_succ]
          rw [this]
          congr 2
          ring
      · intro i hi
        match i with
        | 0 => simpa using hlt
        | j + 1 =>
          simp only [List.length_cons] at hi
          have := ih3 j (by omega)
          calc start + (j + 1) * (size - overlap) + size
              = start + (size - overlap) + j * (size - overlap) + size := by ring
            _ < tokens.length := this
      · simp only [List.length_cons, Nat.add_sub_cancel]
        obtain ⟨m, hm⟩ : ∃ m, rest.length = m + 1 := ⟨rest.length - 1, by omega⟩
        rw [hm] at ih4
        rw [hm]
        simp only [Nat.add_sub_cancel] at ih4
        calc tokens.length ≤ start + (size - overlap) + m * (size - overlap) + size := ih4
          _ = start + (m + 1) * (size - overlap) + size := by ring
        


set_option maxRecDepth 8000 in
/-- C2 (amended): with `0 ≤ overlap < size` and a non-empty token stream,
chunk `i` is the `size`-token slice starting at token `i * (size - overlap)`;
every chunk except the last has exactly `size` tokens; adjacent chunks share
exactly `overlap` tokens; the list ends with the first chunk that reaches
the end of the stream; if `0 < n ≤ size` there is exactly one chunk holding
the whole stream; and for `size = 100`, `overlap = 20` over 250 tokens there
are exactly 3 chunks, starting at tokens 0, 80 and 160.  (The original
claim's single-chunk case fails for the empty stream, see
`chunkText_empty_counterexample`.) -/
theorem chunkText_spec {α : Type} (tokens : List α) (size overlap : Nat)
    (hso : overlap < size) (h0 : 0 < tokens.length) :
    0 < (chunkText tokens size overlap).length ∧
    (∀ i (hi : i < (chunkText tokens size overlap).length),
        (chunkText tokens size overlap).get ⟨i, hi⟩ =
          (tokens.drop (i * (size - overlap))).take size) ∧
    (∀ i, i + 1 < (chunkText tokens size overlap).length →
        i * (size - overlap) + size < tokens.length) ∧
    (∀ i (hi : i + 1 < (chunkText tokens size overlap).length),
        ((chunkText tokens size overlap).get ⟨i, Nat.lt_of_succ_lt hi⟩).length = size) ∧
    (∀ i (hi : i + 1 < (chunkText tokens size overlap).length),
        ((chunkText tokens size overlap).get ⟨i, Nat.lt_of_succ_lt hi⟩).drop (size - overlap) =
          ((chunkText tokens size overlap).get ⟨i + 1, hi⟩).take overlap) ∧
    tokens.length ≤ ((chunkText tokens size overlap).length - 1) * (size - overlap) + size ∧
    (tokens.length ≤ size → chunkText tokens size overlap = [tokens]) ∧
    chunkText (List.range 250) 100 20 =
      [List.range' 0 100, List.range' 80 100, List.range' 160 90] := by
  obtain ⟨h1, h2, h3, h4⟩ :=
    chunkGo_spec size overlap hso tokens (tokens.length + 1) 0 (by omega) h0
  have hget : ∀ i (hi : i < (chunkText tokens size overlap).length),
      (chunkText tokens size overlap).get ⟨i, hi⟩ =
        (tokens.drop (i * (size - overlap))).take size := by
    intro i hi
    have := h2 i hi
    simpa using this
  have hmid : ∀ i, i + 1 < (chunkText tokens size overlap).length →
      i * (size - overlap) + size < tokens.length := by
    intro i hi
    have := h3 i hi
    simpa using this
  have hlast : tokens.length ≤
      ((chunkText tokens size overlap).length - 1) * (size - overlap) + size := by
    have := h4
    simpa using this
  refine ⟨h1, hget, hmid, ?_, ?_, hlast, ?_, by decide⟩
  · intro i hi
    rw [hget i (Nat.lt_of_succ_lt hi)]
    have hmi := hmid i hi
    simp only [List.length_take, List.length_drop]
    rw [Nat.min_eq_left (by omega)]
  · intro i hi
    rw [hget i (Nat.lt_of_succ_lt hi), hget (i + 1) hi]
    rw [List.drop_take, List.drop_drop]
    rw [List.take_take]
    have e1 : size - (size - overlap) = overlap := by omega
    have e2 : overlap ⊓ size = overlap := by omega
    have e3 : i * (size - overlap) + (size - overlap) = (i + 1) * (size - overlap) := by ring
    rw [e1, e2, e3]
  · intro hns
    have h1x : 0 < (chunkText tokens size overlap).length := h1
    have hlen1 : (chunkText tokens size overlap).length = 1 := by
      by_contra hne
      have h2le : 2 ≤ (chunkText tokens size overlap).length := by omega
      have := hmid 0 (by omega)
      omega
    apply List.ext_get (by simpa using hlen1)
    intro n hn1 hn2
    have hn0 : n = 0 := by
      simp only [List.length_singleton] at hn2
      omega
    subst hn0
    rw [hget 0 hn1]
    simp [List.take_of_length_le hns]

/-- Witness for `chunkText_spec` at `tokens = [0, 1, 2]`, `size = 2`,
`overlap = 1`. -/
theorem chunkText_spec_witness : 0 < (chunkText [0, 1, 2] 2 1).length :=
  (chunkText_spec [0, 1, 2] 2 1 (by decide) (by decide)).1

/-- C2 counterexample: the empty text has `0 ≤ size` tokens, yet `chunkText`
produces zero chunks, not the claimed single chunk containing the whole
text. -/
theorem chunkText_empty_counterexample :
    20 < 100 ∧ ([] : List Nat).length ≤ 100 ∧ chunkText ([] : List Nat) 100 20 = [] :=
  ⟨by decide, by decide, rfl⟩

/-- C4: With `overlap = size` (start pointer advance `size - overlap = 0`) and a
stream longer than `size`, the loop body never reaches its exit: the
fuel-indexed embedding returns one chunk per unit of fuel, so no amount of
fuel stabilises — the source loop does not terminate. -/
theorem chunkGo_no_progress_of_overlap_eq_size (fuel : Nat) :
    (chunkGo 1 1 [0, 1] fuel 0).length = fuel := by
  induction fuel with
  | zero => rfl
  | succ n ih =>
    simp only [chunkGo, List.length_cons]
    norm_num
    exact ih

theorem normalizeScore_zero_one (s : ℚ) : normalizeScore s 0 1 = clamp01 s := by
  simp [normalizeScore, clamp01]

theorem normalizeScore_zero_hundred (s : ℚ) :
    normalizeScore s 0 100 = clamp01 (s / 100) := by
  simp [normalizeScore, clamp01]

theorem clamp01_nonneg (x : ℚ) : 0 ≤ clamp01 x := le_max_left 0 _

theorem clamp01_le_one (x : ℚ) : clamp01 x ≤ 1 :=
  max_le (by norm_num) (min_le_left 1 x)

theorem round2_nonneg {x : ℚ} (h : 0 ≤ x) : 0 ≤ round2 x := by
  unfold round2 jsRound
  have h1 : (0 : ℤ) ≤ ⌊x * 100 + 1 / 2⌋ := by
    rw [Int.floor_nonneg]
    nlinarith
  positivity
  
theorem round2_le_one {x : ℚ} (h : x ≤ 1) : round2 x ≤ 1 := by
  unfold round2 jsRound
  have h1 : ⌊x * 100 + 1 / 2⌋ ≤ 100 := by
    have h2 : x * 100 + 1 / 2 ≤ 201 / 2 := by nlinarith
    calc ⌊x * 100 + 1 / 2⌋ ≤ ⌊(201 : ℚ) / 2⌋ := Int.floor_le_floor h2
      _ = 100 := by norm_num [Int.floor_eq_iff]
  rw [div_le_one (by norm_num)]
  exact_mod_cast h1

theorem clamp01_of_mem {x : ℚ} (h0 : 0 ≤ x) (h1 : x ≤ 1) : clamp01 x = x := by
  unfold clamp01
  rw [min_eq_right h1, max_eq_right h0]

theorem round2_eq (x : ℚ) (z : ℤ) (h1 : (z : ℚ) ≤ x * 100 + 1 / 2)
    (h2 : x * 100 + 1 / 2 < z + 1) : round2 x = (z : ℚ) / 100 := by
  unfold round2 jsRound
  congr 2
  rw [Int.floor_eq_iff]
  constructor
  · exact h1
  · exact_mod_cast h2

/-- C1: for every rational input triple, `finalConfidence` equals the
2-decimal rounding of `0.45 * clamp01(similarity) + 0.35 * clamp01(lexical / 100)
+ 0.20 * clamp01(llmSelf)`, always lies in `[0, 1]`, and the three quoted
examples evaluate to `0.72`, `1.00` and `0.00`. -/
theorem calculateConfidence_spec (inputs : ConfidenceInputs) :
    ((calculateConfidence inputs).finalConfidence =
      round2 (45 / 100 * clamp01 inputs.avgSimilarityScore +
              35 / 100 * clamp01 (inputs.avgLexicalScore / 100) +
              20 / 100 * clamp01 inputs.llmScore) ∧
    0 ≤ (calculateConfidence inputs).finalConfidence ∧
    (calculateConfidence inputs).finalConfidence ≤ 1) ∧
    (calculateConfidence ⟨89/100, 77/2, 92/100⟩).finalConfidence = 72/100 ∧
    (calculateConfidence ⟨1, 100, 1⟩).finalConfidence = 1 ∧
    (calculateConfidence ⟨0, 0, 0⟩).finalConfidence = 0 := by
  refine ⟨?_, ?_, ?_, ?_⟩
  · have heq : (calculateConfidence inputs).finalConfidence =
        round2 (45 / 100 * clamp01 inputs.avgSimilarityScore +
                35 / 100 * clamp01 (inputs.avgLexicalScore / 100) +
                20 / 100 * clamp01 inputs.llmScore) := by
      show round2 (CONFIDENCE_WEIGHTS_similarity * normalizeScore inputs.avgSimilarityScore 0 1 +
          CONFIDENCE_WEIGHTS_lexical * normalizeScore inputs.avgLexicalScore 0 100 +
          CONFIDENCE_WEIGHTS_llm * normalizeScore inputs.llmScore 0 1) = _
      simp only [normalizeScore_zero_one, normalizeScore_zero_hundred,
        CONFIDENCE_WEIGHTS_similarity, CONFIDENCE_WEIGHTS_lexical, CONFIDENCE_WEIGHTS_llm]
    have b1l := clamp01_nonneg inputs.avgSimilarityScore
    have b1u := clamp01_le_one inputs.avgSimilarityScore
    have b2l := clamp01_nonneg (inputs.avgLexicalScore / 100)
    have b2u := clamp01_le_one (inputs.avgLexicalScore / 100)
    have b3l := clamp01_nonneg inputs.llmScore
    have b3u := clamp01_le_one inputs.llmScore
    refine ⟨heq, ?_, ?_⟩
    · rw [heq]
      apply round2_nonneg
      nlinarith
    · rw [heq]
      apply round2_le_one
      nlinarith
  · show round2 (CONFIDENCE_WEIGHTS_similarity * normalizeScore (89/100) 0 1 +
        CONFIDENCE_WEIGHTS_lexical * normalizeScore (77/2) 0 100 +
        CONFIDENCE_WEIGHTS_llm * normalizeScore (92/100) 0 1) = 72/100
    have h1 : normalizeScore (89/100) 0 1 = 89/100 := by
      rw [normalizeScore_zero_one, clamp01_of_mem (by norm_num) (by norm_num)]
    have h2 : normalizeScore (77/2) 0 100 = 77/200 := by
      rw [normalizeScore_zero_hundred]
      rw [show ((77:ℚ)/2)/100 = 77/200 by norm_num]
      rw [clamp01_of_mem (by norm_num) (by norm_num)]
    have h3 : normalizeScore (92/100) 0 1 = 92/100 := by
      rw [normalizeScore_zero_one, clamp01_of_mem (by norm_num) (by norm_num)]
    rw [h1, h2, h3]
    rw [show CONFIDENCE_WEIGHTS_similarity * ((89:ℚ)/100) +
        CONFIDENCE_WEIGHTS_lexical * (77/200) + CONFIDENCE_WEIGHTS_llm * (92/100) =
        71925/100000 by norm_num [CONFIDENCE_WEIGHTS_similarity,
          CONFIDENCE_WEIGHTS_lexical, CONFIDENCE_WEIGHTS_llm]]
    rw [round2_eq _ 72 (by norm_num) (by norm_num)]
    norm_num
  · show round2 (CONFIDENCE_WEIGHTS_similarity * normalizeScore 1 0 1 +
        CONFIDENCE_WEIGHTS_lexical * normalizeScore 100 0 100 +
        CONFIDENCE_WEIGHTS_llm * normalizeScore 1 0 1) = 1
    have h1 : normalizeScore 1 0 1 = 1 := by
      rw [normalizeScore_zero_one, clamp01_of_mem (by norm_num) (by norm_num)]
    have h2 : normalizeScore 100 0 100 = 1 := by
      rw [normalizeScore_zero_hundred]
      rw [show (100:ℚ)/100 = 1 by norm_num]
      rw [clamp01_of_mem (by norm_num) (by norm_num)]
    rw [h1, h2]
    rw [show CONFIDENCE_WEIGHTS_similarity * (1:ℚ) +
        CONFIDENCE_WEIGHTS_lexical * 1 + CONFIDENCE_WEIGHTS_llm * 1 =
        1 by norm_num [CONFIDENCE_WEIGHTS_similarity,
          CONFIDENCE_WEIGHTS_lexical, CONFIDENCE_WEIGHTS_llm]]
    rw [round2_eq _ 100 (by norm_num) (by norm_num)]
    norm_num
  · show round2 (CONFIDENCE_WEIGHTS_similarity * normalizeScore 0 0 1 +
        CONFIDENCE_WEIGHTS_lexical * normalizeScore 0 0 100 +
        CONFIDENCE_WEIGHTS_llm * normalizeScore 0 0 1) = 0
    have h1 : normalizeScore 0 0 1 = 0 := by
      rw [normalizeScore_zero_one, clamp01_of_mem (by norm_num) (by norm_num)]
    have h2 : normalizeScore 0 0 100 = 0 := by
      rw [normalizeScore_zero_hundred]
      rw [show (0:ℚ)/100 = 0 by norm_num]
      rw [clamp01_of_mem (by norm_num) (by norm_num)]
    rw [h1, h2]
    rw [show CONFIDENCE_WEIGHTS_similarity * (0:ℚ) +
        CONFIDENCE_WEIGHTS_lexical * 0 + CONFIDENCE_WEIGHTS_llm * 0 =
        0 by norm_num]
    rw [round2_eq _ 0 (by norm_num) (by norm_num)]
    norm_num

theorem step2Trace_queryCacheWrites (env : Env) (req : FormQueryRequest) :
    (step2Trace env req).queryCacheWrites = [] := by
  unfold step2Trace
  cases req.customerId with
  | none => rfl
  | some cid =>
    dsimp only
    split_ifs <;> rfl

/-- Every successful run of steps 2–8 returns a response with
`cached = false`, and every query-cache write it performs stores a
response with `cached = false`. -/
theorem processFormQueryMiss_fresh (hash : List Nat → List Nat) (env : Env)
    (req : FormQueryRequest) (resp : FormQueryResponse) (tr : Trace)
    (h : processFormQueryMiss hash env req = .ok (resp, tr)) :
    resp.cached = false ∧ ∀ w ∈ tr.queryCacheWrites, w.2.cached = false := by
  unfold processFormQueryMiss at h
  split at h
  · simp only [Except.ok.injEq, Prod.mk.injEq] at h
    obtain ⟨h1, h2⟩ := h
    subst h1
    subst h2
    refine ⟨rfl, ?_⟩
    rw [step2Trace_queryCacheWrites]
    intro w hw
    simp at hw
  · split at h
    · split at h
      · simp only [Except.ok.injEq, Prod.mk.injEq] at h
        obtain ⟨h1, h2⟩ := h
        subst h1
        subst h2
        refine ⟨rfl, ?_⟩
        intro w hw
        simp only [List.mem_singleton] at hw
        subst hw
        rfl
      · exact absurd h (by simp)
    · simp only [Except.ok.injEq, Prod.mk.injEq] at h
      obtain ⟨h1, h2⟩ := h
      subst h1
      subst h2
      refine ⟨rfl, ?_⟩
      rw [step2Trace_queryCacheWrites]
      intro w hw
      simp at hw

/-- C5: the query cache never receives a response with `cached = true`:
every cache write performed by `processFormQuery` stores `cached = false`,
and a returned response carries `cached = true` only when the cache lookup
hit, in which case it is the stored response with the flag set at the read
site. -/
theorem processFormQuery_cached_flag (hash : List Nat → List Nat) (env : Env)
    (req : FormQueryRequest) (resp : FormQueryResponse) (tr : Trace)
    (h : processFormQuery hash env req = .ok (resp, tr)) :
    (∀ w ∈ tr.queryCacheWrites, w.2.cached = false) ∧
    (resp.cached = true →
      env.queryCacheFlag = true ∧
      ∃ r, env.cacheGet = some r ∧ resp = { r with cached := true }) := by
  unfold processFormQuery at h
  by_cases hflag : env.queryCacheFlag = true
  · rw [if_pos hflag] at h
    cases hget : env.cacheGet with
    | some r =>
      rw [hget] at h
      simp only [Except.ok.injEq, Prod.mk.injEq] at h
      obtain ⟨h1, h2⟩ := h
      subst h1
      subst h2
      constructor
      · intro w hw
        simp [emptyTrace] at hw
      · intro _
        exact ⟨hflag, r, rfl, rfl⟩
    | none =>
      rw [hget] at h
      obtain ⟨hfresh, hwrites⟩ := processFormQueryMiss_fresh hash env req resp tr h
      refine ⟨hwrites, ?_⟩
      intro hc
      rw [hfresh] at hc
      cases hc
  · rw [if_neg hflag] at h
    obtain ⟨hfresh, hwrites⟩ := processFormQueryMiss_fresh hash env req resp tr h
    refine ⟨hwrites, ?_⟩
    intro hc
    rw [hfresh] at hc
    cases hc

/-- Witness for `processFormQuery_cached_flag` at a concrete cache-hit
environment. -/
theorem processFormQuery_cached_flag_witness :
    (∀ w ∈ emptyTrace.queryCacheWrites, w.2.cached = false) ∧
    (({ cachedResp with cached := true } : FormQueryResponse).cached = true →
      envHit.queryCacheFlag = true ∧
      ∃ r, envHit.cacheGet = some r ∧
        ({ cachedResp with cached := true } : FormQueryResponse) = { r with cached := true }) :=
  processFormQuery_cached_flag (fun l => l) envHit cexReq
    { cachedResp with cached := true } emptyTrace rfl

/-- C6: on a cache miss whose retrieval returns zero results,
`processFormQuery` succeeds (it is not an error) with the fixed
"no relevant information" response — confidence 0, empty `dataPath`,
empty `sources`, `cached = false` — and neither calls the generator or
the confidence scorer nor writes anything to the query cache. -/
theorem processFormQuery_zero_results (hash : List Nat → List Nat) (env : Env)
    (req : FormQueryRequest)
    (hmiss : env.queryCacheFlag = false ∨ env.cacheGet = none)
    (hzero : env.retrieval.results = []) :
    processFormQuery hash env req = .ok (noRelevantInfoResponse, step2Trace env req) ∧
    noRelevantInfoResponse.answer = "No relevant information found." ∧
    noRelevantInfoResponse.confidence = 0 ∧
    noRelevantInfoResponse.dataPath = [] ∧
    noRelevantInfoResponse.sources = [] ∧
    noRelevantInfoResponse.cached = false ∧
    (step2Trace env req).queryCacheWrites = [] ∧
    (step2Trace env req).generateCalled = false ∧
    (step2Trace env req).confidenceCalled = false := by
  have hmissrun : processFormQueryMiss hash env req =
      .ok (noRelevantInfoResponse, step2Trace env req) := by
    unfold processFormQueryMiss
    rw [if_pos (by simp [hzero])]
  have hflags : (step2Trace env req).queryCacheWrites = [] ∧
      (step2Trace env req).generateCalled = false ∧
      (step2Trace env req).confidenceCalled = false := by
    unfold step2Trace
    cases req.customerId with
    | none => exact ⟨rfl, rfl, rfl⟩
    | some cid =>
      dsimp only
      split_ifs <;> exact ⟨rfl, rfl, rfl⟩
  have hrun : processFormQuery hash env req =
      .ok (noRelevantInfoResponse, step2Trace env req) := by
    unfold processFormQuery
    rcases hmiss with hflag | hget
    · rw [if_neg (by simp [hflag])]
      exact hmissrun
    · by_cases hflag : env.queryCacheFlag = true
      · rw [if_pos hflag, hget]
        exact hmissrun
      · rw [if_neg hflag]
        exact hmissrun
  exact ⟨hrun, rfl, rfl, rfl, rfl, rfl, hflags.1, hflags.2.1, hflags.2.2⟩

/-- Witness for `processFormQuery_zero_results` at a concrete environment
with an empty result set. -/
theorem processFormQuery_zero_results_witness :
    processFormQuery (fun l => l) envEmpty cexReq =
      .ok (noRelevantInfoResponse, step2Trace envEmpty cexReq) :=
  (processFormQuery_zero_results (fun l => l) envEmpty cexReq (Or.inr rfl) rfl).1

/-- C7 counterexample: in a concrete environment where everything up to the
final cache-store step succeeds but the cache write fails,
`processFormQuery` does not return the computed response — it throws
`'Failed to process form query'` (the `RedisService.set` error propagates
into the service's catch-all), contradicting the claimed best-effort
caching. -/
theorem processFormQuery_cacheWrite_failure_counterexample :
    cexEnvSetFail.cacheSetOk = false ∧
    cexEnvSetFail.retrieval.results.length = 1 ∧
    processFormQuery (fun l => l) cexEnvSetFail cexReq =
      .error "Failed to process form query" :=
  ⟨rfl, rfl, rfl⟩

/-- C7 (amended): a failure of the cache write at the final cache-store
step fails the whole request: instead of returning the computed response,
`processFormQuery` surfaces the catch-all error
`'Failed to process form query'`. -/
theorem processFormQuery_cacheWrite_failure (hash : List Nat → List Nat)
    (env : Env) (req : FormQueryRequest)
    (hflag : env.queryCacheFlag = true) (hget : env.cacheGet = none)
    (hres : env.retrieval.results ≠ []) (hset : env.cacheSetOk = false) :
    processFormQuery hash env req = .error "Failed to process form query" := by
  unfold processFormQuery
  rw [if_pos hflag, hget]
  unfold processFormQueryMiss
  rw [if_neg (by simp [hres])]
  simp only [hflag, hset]
  rfl

/-- Witness for `processFormQuery_cacheWrite_failure` at the concrete
failing environment. -/
theorem processFormQuery_cacheWrite_failure_witness :
    processFormQuery (fun l => [0] ++ l) cexEnvSetFail cexReq =
      .error "Failed to process form query" :=
  processFormQuery_cacheWrite_failure (fun l => [0] ++ l) cexEnvSetFail cexReq
    rfl rfl (by simp [cexEnvSetFail, cexRetrieval]) rfl

/-- C9: the `GET /health` handler computes its HTTP status synchronously,
before either connectivity-probe continuation has run: whatever the probe
outcomes, the response sent is `200` with `status = "ok"` and both
dependencies reported `"unknown"`.  In particular a failing Redis probe
still gets `200`/`"ok"`, not the claimed `503`/`"degraded"` — the
degraded state is only reached by the never-observed record mutated after
the response is sent. -/
theorem healthHandler_always_ok (redisProbeOk searchProbeOk : Bool) :
    (healthHandler redisProbeOk searchProbeOk).1 = (200, initialHealth) ∧
    initialHealth.status = "ok" ∧
    (healthHandler false true).2.status = "degraded" ∧
    (healthHandler false true).1.1 ≠ 503 := by
  refine ⟨?_, rfl, rfl, by decide⟩
  unfold healthHandler
  norm_num [initialHealth]

theorem foldl_chunksForPair (encode : String → List Nat) (size ov : Nat)
    (l : List (String × String)) (acc : Nat) :
    l.foldl (fun a pv => a + chunksForPair encode size ov pv) acc =
      acc + ((l.filter (fun pv => decide (10 ≤ pv.2.length))).map
        (fun pv => (chunkText (encode pv.2) size ov).length)).sum := by
  induction l generalizing acc with
  | nil => simp
  | cons pv rest ih =>
    by_cases hlen : pv.2.length < 10
    · have hc : chunksForPair encode size ov pv = 0 := by
        unfold chunksForPair
        rw [if_pos hlen]
      have hf : decide (10 ≤ pv.2.length) = false := by
        simp
        omega
      simp only [List.foldl_cons, List.filter_cons, hf, ih, hc, Nat.add_zero,
        Bool.false_eq_true, if_false]
    · have hc : chunksForPair encode size ov pv =
          (chunkText (encode pv.2) size ov).length := by
        unfold chunksForPair
        rw [if_neg hlen]
      have hf : decide (10 ≤ pv.2.length) = true := by
        simp
        omega
      simp only [List.foldl_cons, List.filter_cons, hf, ih, hc, if_true,
        List.map_cons, List.sum_cons]
      omega

/-- C10: `documentsProcessed` counts every flattened leaf pair — including
the ones whose stringified value is shorter than 10 characters, which are
skipped and contribute no chunks — while `chunksCreated` sums the chunks
of the values of length at least 10 only; when every leaf value is short
the result has `documentsProcessed > 0` and `chunksCreated = 0`, as the
concrete one-short-leaf example shows. -/
theorem ingestCustomerData_counts (encode : String → List Nat) (size ov : Nat)
    (data : JValue) :
    (ingestCustomerData encode size ov data).documentsProcessed =
      (flattenData data "").length ∧
    (ingestCustomerData encode size ov data).chunksCreated =
      (((flattenData data "").filter (fun pv => decide (10 ≤ pv.2.length))).map
        (fun pv => (chunkText (encode pv.2) size ov).length)).sum ∧
    ((∀ pv ∈ flattenData data "", pv.2.length < 10) →
      (ingestCustomerData encode size ov data).chunksCreated = 0) ∧
    (ingestCustomerData exEncode 500 100
      (JValue.jobj [("a", JValue.jstr "short")])).documentsProcessed = 1 ∧
    (ingestCustomerData exEncode 500 100
      (JValue.jobj [("a", JValue.jstr "short")])).chunksCreated = 0 := by
  have hsum : (ingestCustomerData encode size ov data).chunksCreated =
      (((flattenData data "").filter (fun pv => decide (10 ≤ pv.2.length))).map
        (fun pv => (chunkText (encode pv.2) size ov).length)).sum := by
    show (flattenData data "").foldl (fun a pv => a + chunksForPair encode size ov pv) 0 = _
    rw [foldl_chunksForPair]
    omega
  refine ⟨rfl, hsum, ?_, by decide, by decide⟩
  intro hshort
  rw [hsum]
  have hnil : (flattenData data "").filter (fun pv => decide (10 ≤ pv.2.length)) = [] := by
    rw [List.filter_eq_nil_iff]
    intro pv hpv
    have := hshort pv hpv
    simp
    omega
  rw [hnil]
  simp

/-- Witness for `ingestCustomerData_counts`: a single short leaf gives
`chunksCreated = 0` via the all-short implication. -/
theorem ingestCustomerData_counts_witness :
    (ingestCustomerData exEncode 500 100
      (JValue.jobj [("a", JValue.jstr "short")])).chunksCreated = 0 :=
  (ingestCustomerData_counts exEncode 500 100
    (JValue.jobj [("a", JValue.jstr "short")])).2.2.1 (by decide)

/-- C8 counterexample: an explicitly supplied empty-string scope is a
different scope argument from no scope at all, yet — by JavaScript
truthiness on `customerId` — `createCacheKey` produces the identical key
for the same query text, for any hash function (here the identity). -/
theorem createCacheKey_empty_scope_counterexample :
    (some ([] : List Nat)) ≠ (none : Option (List Nat)) ∧
    createCacheKey (fun l => l) [104, 105] (some []) =
      createCacheKey (fun l => l) [104, 105] none :=
  ⟨by simp, rfl⟩

/-- C8 (amended): `createCacheKey` is deterministic — equal normalized
query text and equal scope give equal keys — and for a fixed query two
differing, non-empty-string scopes (a missing scope counts as a scope
value) produce different pre-hash key bases, hence different keys
whenever the hash is injective on them; a supplied empty-string scope is
truthiness-equivalent to no scope and yields the identical key. -/
theorem createCacheKey_spec :
    (∀ (hash : List Nat → List Nat) (q1 q2 : List Nat) (c : Option (List Nat)),
        normalizeQuery q1 = normalizeQuery q2 →
        createCacheKey hash q1 c = createCacheKey hash q2 c) ∧
    (∀ hash : List Nat → List Nat, Function.Injective hash →
      ∀ (q : List Nat) (c1 c2 : Option (List Nat)),
        c1 ≠ c2 → c1 ≠ some [] → c2 ≠ some [] →
        createCacheKey hash q c1 ≠ createCacheKey hash q c2) := by
  constructor
  · intro hash q1 q2 c h
    unfold createCacheKey
    cases c with
    | none => rw [h]
    | some a => rw [h]
  · intro hash hinj q c1 c2 hne h1 h2 heq
    unfold createCacheKey at heq
    have hbase := hinj (List.append_cancel_left heq)
    cases c1 with
    | none =>
      cases c2 with
      | none => exact hne rfl
      | some b =>
        have hb : ¬b = [] := by
          intro hb
          exact h2 (by rw [hb])
        dsimp only at hbase
        rw [if_neg hb] at hbase
        have := congrArg List.length hbase
        simp at this
        omega
    | some a =>
      have ha : ¬a = [] := by
        intro ha
        exact h1 (by rw [ha])
      cases c2 with
      | none =>
        dsimp only at hbase
        rw [if_neg ha] at hbase
        have := congrArg List.length hbase
        simp at this
        omega
      | some b =>
        have hb : ¬b = [] := by
          intro hb
          exact h2 (by rw [hb])
        dsimp only at hbase
        rw [if_neg ha, if_neg hb] at hbase
        have hab : a = b := List.append_cancel_right hbase
        exact hne (by rw [hab])

/-- Witness for `createCacheKey_spec`: determinism at a concrete query and
scope separation between scope `"a"` and no scope under the identity
hash. -/
theorem createCacheKey_spec_witness :
    createCacheKey (fun l => l) [104, 105] none =
      createCacheKey (fun l => l) [104, 105] none ∧
    createCacheKey (fun l => l) [104, 105] (some [97]) ≠
      createCacheKey (fun l => l) [104, 105] none :=
  ⟨createCacheKey_spec.1 (fun l => l) [104, 105] [104, 105] none rfl,
   createCacheKey_spec.2 (fun l => l) (fun a b h => h) [104, 105] (some [97]) none
     (by simp) (by simp) (by simp)⟩

-- unfolding equations for the collapse loop

theorem collapseGo_cons (b : Bool) (d : Nat) (rest : List Nat) :
    collapseGo b (d :: rest) =
      if wsB d = true then
        (if b = true then collapseGo true rest else 32 :: collapseGo true rest)
      else d :: collapseGo false rest := rfl

theorem collapseGo_cons_ws_true {d : Nat} {rest : List Nat} (hd : wsB d = true) :
    collapseGo true (d :: rest) = collapseGo true rest := by
  rw [collapseGo_cons, if_pos hd, if_pos rfl]

theorem collapseGo_cons_ws_false {d : Nat} {rest : List Nat} (hd : wsB d = true) :
    collapseGo false (d :: rest) = 32 :: collapseGo true rest := by
  rw [collapseGo_cons, if_pos hd, if_neg (by simp)]

theorem collapseGo_cons_nonws (b : Bool) {d : Nat} {rest : List Nat}
    (hd : wsB d = false) :
    collapseGo b (d :: rest) = d :: collapseGo false rest := by
  rw [collapseGo_cons, if_neg (by simp [hd])]

-- character-level facts

theorem toLowerChar_not_upper (c : Nat) :
    ¬(65 ≤ toLowerChar c ∧ toLowerChar c ≤ 90) := by
  unfold toLowerChar
  split_ifs with h <;> omega

theorem toLowerChar_eq_self {c : Nat} (h : ¬(65 ≤ c ∧ c ≤ 90)) :
    toLowerChar c = c := if_neg h

-- membership facts

theorem mem_collapseGo {c : Nat} :
    ∀ (b : Bool) (l : List Nat), c ∈ collapseGo b l →
      c = 32 ∨ (c ∈ l ∧ wsB c = false) := by
  intro b l
  induction l generalizing b with
  | nil => intro h; simp [collapseGo] at h
  | cons d rest ih =>
    intro h
    unfold collapseGo at h
    by_cases hd : wsB d = true
    · rw [if_pos hd] at h
      cases b with
      | true =>
        simp only [if_true] at h
        rcases ih true h with h32 | ⟨hmem, hws⟩
        · exact Or.inl h32
        · exact Or.inr ⟨List.mem_cons_of_mem d hmem, hws⟩
      | false =>
        simp only [Bool.false_eq_true, if_false, List.mem_cons] at h
        rcases h with h32 | h
        · exact Or.inl h32
        · rcases ih true h with h32 | ⟨hmem, hws⟩
          · exact Or.inl h32
          · exact Or.inr ⟨List.mem_cons_of_mem d hmem, hws⟩
    · rw [if_neg hd] at h
      rcases List.mem_cons.mp h with hcd | h
      · subst hcd
        exact Or.inr ⟨List.mem_cons_self c rest, by simpa using hd⟩
      · rcases ih false h with h32 | ⟨hmem, hws⟩
        · exact Or.inl h32
        · exact Or.inr ⟨List.mem_cons_of_mem d hmem, hws⟩

theorem mem_jsTrim {c : Nat} {l : List Nat} (h : c ∈ jsTrim l) : c ∈ l := by
  unfold jsTrim at h
  rw [List.mem_reverse] at h
  have h2 := (List.dropWhile_sublist wsB).subset h
  rw [List.mem_reverse] at h2
  exact (List.dropWhile_sublist wsB).subset h2

/-- Characters of `normalizeQuery`: word characters or the space `32`, never
an upper-case letter, and the only whitespace is `32`. -/
theorem chars_normalizeQuery {c : Nat} {l : List Nat} (h : c ∈ normalizeQuery l) :
    (isWordChar c ∨ c = 32) ∧ ¬(65 ≤ c ∧ c ≤ 90) ∧ (wsB c = true → c = 32) := by
  unfold normalizeQuery filterWordWs at h
  rw [List.mem_filter] at h
  obtain ⟨hmem, hword⟩ := h
  rcases mem_collapseGo false _ hmem with h32 | ⟨hmem2, hws⟩
  · subst h32
    refine ⟨Or.inr rfl, by omega, fun _ => rfl⟩
  · have hmem3 := mem_jsTrim hmem2
    rw [List.mem_map] at hmem3
    obtain ⟨d, _, hd⟩ := hmem3
    have hup : ¬(65 ≤ c ∧ c ≤ 90) := hd ▸ toLowerChar_not_upper d
    have hnotws : ¬ isWs c := by simpa [wsB] using hws
    have hw : isWordChar c := by
      rcases (decide_eq_true_eq).mp (by simpa [wordOrWsB] using hword) with hw | hws2
      · exact hw
      · exact absurd hws2 hnotws
    exact ⟨Or.inl hw, hup, fun hwc => absurd hwc (by simp [hws])⟩

-- fixpoint machinery

theorem map_id_of_fix {f : Nat → Nat} :
    ∀ {l : List Nat}, (∀ c ∈ l, f c = c) → l.map f = l := by
  intro l
  induction l with
  | nil => intro _; rfl
  | cons c rest ih =>
    intro h
    simp only [List.map_cons]
    rw [h c (List.mem_cons_self c rest), ih (fun d hd => h d (List.mem_cons_of_mem c hd))]

/-- The head of `dropWhile p l` does not satisfy `p`. -/
theorem head_dropWhile_false (p : Nat → Bool) :
    ∀ (l : List Nat) (c : Nat), (l.dropWhile p).head? = some c → p c = false := by
  intro l
  induction l with
  | nil => intro c h; simp at h
  | cons d rest ih =>
    intro c h
    by_cases hd : p d = true
    · rw [List.dropWhile_cons_of_pos hd] at h
      exact ih c h
    · rw [List.dropWhile_cons_of_neg hd] at h
      simp only [List.head?_cons, Option.some.injEq] at h
      subst h
      simpa using hd

/-- `dropWhile` removes a prefix, so a nonempty result keeps the last
element. -/
theorem getLast_dropWhile (p : Nat → Bool) :
    ∀ (l : List Nat), l.dropWhile p = [] ∨ (l.dropWhile p).getLast? = l.getLast? := by
  intro l
  induction l with
  | nil => exact Or.inl rfl
  | cons d rest ih =>
    by_cases hd : p d = true
    · rw [List.dropWhile_cons_of_pos hd]
      rcases ih with hnil | hlast
      · exact Or.inl hnil
      · cases hr : rest with
        | nil =>
          subst hr
          exact Or.inl rfl
        | cons e rest2 =>
          right
          rw [List.getLast?_cons_cons, ← hr, hlast, hr]
    · rw [List.dropWhile_cons_of_neg hd]
      exact Or.inr rfl

theorem head_jsTrim {l : List Nat} {c : Nat} (h : (jsTrim l).head? = some c) :
    wsB c = false := by
  unfold jsTrim at h
  rw [List.head?_reverse] at h
  rcases getLast_dropWhile wsB (l.dropWhile wsB).reverse with hnil | hlast
  · rw [hnil] at h
    simp at h
  · rw [hlast, List.getLast?_reverse] at h
    exact head_dropWhile_false wsB l c h

theorem last_jsTrim {l : List Nat} {c : Nat} (h : (jsTrim l).getLast? = some c) :
    wsB c = false := by
  unfold jsTrim at h
  rw [List.getLast?_reverse] at h
  exact head_dropWhile_false wsB (l.dropWhile wsB).reverse c h

/-- If the head does not satisfy the whitespace predicate, the collapsing
flag is irrelevant. -/
theorem collapseGo_true_eq_false {l : List Nat}
    (h : ∀ c, l.head? = some c → wsB c = false) :
    collapseGo true l = collapseGo false l := by
  cases l with
  | nil => rfl
  | cons c rest =>
    have hc := h c rfl
    unfold collapseGo
    rw [if_neg (by simp [hc]), if_neg (by simp [hc])]

/-- Collapsing preserves a non-whitespace head (producing one when the flag
is `true`), and its output never has two adjacent whitespace characters. -/
theorem collapseGo_chain :
    ∀ (l : List Nat) (b : Bool),
      List.Chain' (fun x y => wsB x = false ∨ wsB y = false) (collapseGo b l) ∧
      (b = true → ∀ c, (collapseGo b l).head? = some c → wsB c = false) := by
  intro l
  induction l with
  | nil => intro b; exact ⟨List.chain'_nil, fun _ c h => by simp [collapseGo] at h⟩
  | cons d rest ih =>
    intro b
    by_cases hd : wsB d = true
    · cases b with
      | true =>
        rw [collapseGo_cons_ws_true hd]
        exact ⟨(ih true).1, fun _ => (ih true).2 rfl⟩
      | false =>
        rw [collapseGo_cons_ws_false hd]
        constructor
        · rw [List.chain'_cons']
          refine ⟨?_, (ih true).1⟩
          intro y hy
          exact Or.inr ((ih true).2 rfl y hy)
        · intro hb
          cases hb
    · rw [collapseGo_cons_nonws b (by simpa using hd)]
      constructor
      · rw [List.chain'_cons']
        refine ⟨?_, (ih false).1⟩
        intro y _
        exact Or.inl (by simpa using hd)
      · intro _ c hc
        simp only [List.head?_cons, Option.some.injEq] at hc
        subst hc
        simpa using hd

/-- Collapsing also preserves a non-whitespace last element, and keeps the
list nonempty when the input ends in a non-whitespace character. -/
theorem collapseGo_last :
    ∀ (l : List Nat) (b : Bool),
      (∀ c, l.getLast? = some c → wsB c = false) →
      (∀ c, (collapseGo b l).getLast? = some c → wsB c = false) ∧
      (l ≠ [] → collapseGo b l ≠ []) := by
  intro l
  induction l with
  | nil =>
    intro b _
    exact ⟨fun c h => by simp [collapseGo] at h, fun h => absurd rfl h⟩
  | cons d rest ih =>
    intro b hlast
    by_cases hd : wsB d = true
    · -- the input cannot end here: its last element is not whitespace
      cases hr : rest with
      | nil =>
        subst hr
        have := hlast d rfl
        rw [this] at hd
        cases hd
      | cons e rest2 =>
        have hlast2 : ∀ c, rest.getLast? = some c → wsB c = false := by
          intro c hc
          apply hlast
          rw [hr] at hc ⊢
          rw [List.getLast?_cons_cons]
          exact hc
        have hne : rest ≠ [] := by rw [hr]; simp
        obtain ⟨ihl, ihne⟩ := ih true hlast2
        have hwne := ihne hne
        obtain ⟨w0, w', hw⟩ := List.exists_cons_of_ne_nil hwne
        cases b with
        | true =>
          rw [← hr, collapseGo_cons_ws_true hd]
          exact ⟨ihl, fun _ => hwne⟩
        | false =>
          rw [← hr, collapseGo_cons_ws_false hd]
          constructor
          · intro c hc
            rw [hw, List.getLast?_cons_cons, ← hw] at hc
            exact ihl c hc
          · intro _
            simp
    · rw [collapseGo_cons_nonws b (by simpa using hd)]
      cases hr : rest with
      | nil =>
        subst hr
        refine ⟨?_, fun _ => by simp⟩
        intro c hc
        simp only [collapseGo, List.getLast?_singleton, Option.some.injEq] at hc
        subst hc
        simpa using hd
      | cons e rest2 =>
        have hlast2 : ∀ c, rest.getLast? = some c → wsB c = false := by
          intro c hc
          apply hlast
          rw [hr] at hc ⊢
          rw [List.getLast?_cons_cons]
          exact hc
        have hne : rest ≠ [] := by rw [hr]; simp
        obtain ⟨ihl, ihne⟩ := ih false hlast2
        have hwne := ihne hne
        obtain ⟨w0, w', hw⟩ := List.exists_cons_of_ne_nil hwne
        rw [← hr]
        constructor
        · intro c hc
          rw [hw, List.getLast?_cons_cons, ← hw] at hc
          exact ihl c hc
        · intro _
          simp

/-- A list whose only whitespace is single spaces separated by
non-whitespace is a fixed point of collapsing. -/
theorem collapseGo_fix :
    ∀ (l : List Nat),
      (∀ c ∈ l, wsB c = true → c = 32) →
      List.Chain' (fun x y => wsB x = false ∨ wsB y = false) l →
      collapseGo false l = l := by
  intro l
  induction l with
  | nil => intro _ _; rfl
  | cons d rest ih =>
    intro h32 hch
    by_cases hd : wsB d = true
    · have hd32 : d = 32 := h32 d (List.mem_cons_self d rest) hd
      have hhead : ∀ c, rest.head? = some c → wsB c = false := by
        intro c hc
        rcases (List.chain'_cons'.mp hch).1 c hc with h | h
        · rw [h] at hd
          cases hd
        · exact h
      rw [collapseGo_cons_ws_false hd, collapseGo_true_eq_false hhead,
        ih (fun c hc hw => h32 c (List.mem_cons_of_mem d hc) hw) (List.chain'_cons'.mp hch).2,
        hd32]
    · rw [collapseGo_cons_nonws false (by simpa using hd),
        ih (fun c hc hw => h32 c (List.mem_cons_of_mem d hc) hw) (List.chain'_cons'.mp hch).2]

theorem wordOrWsB_of_word_or_space {c : Nat} (h : isWordChar c ∨ c = 32) :
    wordOrWsB c = true := by
  rcases h with h | h
  · simp [wordOrWsB, h]
  · subst h
    decide

/-- On a list without uppercase letters whose characters all pass the
word-or-whitespace filter, `normalizeQuery` reduces to trim-then-collapse. -/
theorem normalizeQuery_of_good (y : List Nat)
    (hA : ∀ c ∈ y, ¬(65 ≤ c ∧ c ≤ 90))
    (hB : ∀ c ∈ y, wordOrWsB c = true) :
    normalizeQuery y = collapseWs (jsTrim y) := by
  unfold normalizeQuery
  rw [map_id_of_fix (fun c hc => toLowerChar_eq_self (hA c hc))]
  unfold filterWordWs
  rw [List.filter_eq_self.mpr ?_]
  intro c hc
  rcases mem_collapseGo false _ hc with h32 | ⟨hm, _⟩
  · subst h32
    decide
  · exact hB c (mem_jsTrim hm)

theorem dropWhile_eq_self_of_head {p : Nat → Bool} {w : List Nat}
    (h : ∀ c, w.head? = some c → p c = false) : w.dropWhile p = w := by
  cases w with
  | nil => rfl
  | cons c rest => exact List.dropWhile_cons_of_neg (by simp [h c rfl])

theorem jsTrim_eq_self {z : List Nat}
    (hh : ∀ c, z.head? = some c → wsB c = false)
    (hl : ∀ c, z.getLast? = some c → wsB c = false) :
    jsTrim z = z := by
  unfold jsTrim
  rw [dropWhile_eq_self_of_head hh]
  rw [dropWhile_eq_self_of_head (fun c hc => hl c (by rwa [List.head?_reverse] at hc))]
  exact List.reverse_reverse z

/-- Trim-then-collapse output is a fixed point of `normalizeQuery`, provided
the input already survives the filter and contains no uppercase letters and
no exotic whitespace. -/
theorem normalizeQuery_fix (y : List Nat)
    (hA : ∀ c ∈ y, ¬(65 ≤ c ∧ c ≤ 90))
    (hB : ∀ c ∈ y, wordOrWsB c = true)
    (hC : ∀ c ∈ y, wsB c = true → c = 32) :
    normalizeQuery (collapseWs (jsTrim y)) = collapseWs (jsTrim y) := by
  have hzmem : ∀ c ∈ collapseWs (jsTrim y), c = 32 ∨ c ∈ y := by
    intro c hc
    rcases mem_collapseGo false (jsTrim y) hc with h32 | ⟨hm, _⟩
    · exact Or.inl h32
    · exact Or.inr (mem_jsTrim hm)
  have hAz : ∀ c ∈ collapseWs (jsTrim y), ¬(65 ≤ c ∧ c ≤ 90) := by
    intro c hc
    rcases hzmem c hc with h32 | hy
    · omega
    · exact hA c hy
  have hBz : ∀ c ∈ collapseWs (jsTrim y), wordOrWsB c = true := by
    intro c hc
    rcases hzmem c hc with h32 | hy
    · subst h32
      decide
    · exact hB c hy
  have hCz : ∀ c ∈ collapseWs (jsTrim y), wsB c = true → c = 32 := by
    intro c hc
    rcases hzmem c hc with h32 | hy
    · exact fun _ => h32
    · exact hC c hy
  have hhz : ∀ c, (collapseWs (jsTrim y)).head? = some c → wsB c = false := by
    intro c hc
    unfold collapseWs at hc
    cases hu2 : jsTrim y with
    | nil =>
      rw [hu2] at hc
      simp [collapseGo] at hc
    | cons d rest =>
      have hd : wsB d = false := head_jsTrim (l := y) (by rw [hu2]; rfl)
      rw [hu2, collapseGo_cons_nonws false hd] at hc
      simp only [List.head?_cons, Option.some.injEq] at hc
      subst hc
      exact hd
  have hlz : ∀ c, (collapseWs (jsTrim y)).getLast? = some c → wsB c = false := by
    intro c hc
    exact (collapseGo_last (jsTrim y) false (fun d hd => last_jsTrim hd)).1 c hc
  have hch : List.Chain' (fun x y => wsB x = false ∨ wsB y = false)
      (collapseWs (jsTrim y)) :=
    (collapseGo_chain (jsTrim y) false).1
  rw [normalizeQuery_of_good (collapseWs (jsTrim y)) hAz hBz, jsTrim_eq_self hhz hlz]
  show collapseGo false (collapseWs (jsTrim y)) = collapseWs (jsTrim y)
  exact collapseGo_fix (collapseWs (jsTrim y)) hCz hch

/-- C3 (amended): `normalizeQuery` is not idempotent (see
`normalizeQuery_not_idempotent_counterexample`: stripping a punctuation
character between two spaces leaves a double space that a second pass
collapses), but it stabilises after two applications:
`normalizeQuery (normalizeQuery (normalizeQuery x)) =
normalizeQuery (normalizeQuery x)` for every input. -/
theorem normalizeQuery_stable (l : List Nat) :
    normalizeQuery (normalizeQuery (normalizeQuery l)) =
      normalizeQuery (normalizeQuery l) := by
  set y := normalizeQuery l with hy
  have hA : ∀ c ∈ y, ¬(65 ≤ c ∧ c ≤ 90) := fun c hc => (chars_normalizeQuery hc).2.1
  have hB : ∀ c ∈ y, wordOrWsB c = true := fun c hc =>
    wordOrWsB_of_word_or_space (chars_normalizeQuery hc).1
  have hC : ∀ c ∈ y, wsB c = true → c = 32 := fun c hc => (chars_normalizeQuery hc).2.2
  have hz : normalizeQuery y = collapseWs (jsTrim y) := normalizeQuery_of_good y hA hB
  rw [hz, normalizeQuery_fix y hA hB hC]

/-- C3 counterexample: on `"a ! b"` (code points `[97, 32, 33, 32, 98]`)
normalization strips the `!` after collapsing whitespace, leaving the
double space `"a  b"`; a second pass collapses it to `"a b"`, so
`normalizeQuery (normalizeQuery x) ≠ normalizeQuery x`. -/
theorem normalizeQuery_not_idempotent_counterexample :
    normalizeQuery [97, 32, 33, 32, 98] = [97, 32, 32, 98] ∧
    normalizeQuery (normalizeQuery [97, 32, 33, 32, 98]) = [97, 32, 98] ∧
    normalizeQuery (normalizeQuery [97, 32, 33, 32, 98]) ≠
      normalizeQuery [97, 32, 33, 32, 98] := by
  refine ⟨by decide, by decide, by decide⟩

end AzureRag
